import Mathlib

/- A shallow embedding of src/backend/src/agent.py (fullstack-search-agent).

   External services are modelled as oracle inputs:
   - the Exa provider response inside the try-block of get_search_results is an
     Except value (error covers any raise: network, auth, malformed response);
   - the planner and executor LLM responses are a per-round script
     (PlanOutcome), indexed by the round number (the value of
     search_iterations during that round), which strictly increases, so every
     sequence of provider behaviours is representable;
   - the synthesizer is a function from the final context to the report text.

   Machine floats (0.1, 1.0) are modelled as exact rationals; code and spec
   use the same arithmetic expression, so the comparison is unaffected.
   The datetime timestamp field of SearchResult is omitted (nondeterministic;
   no claim mentions it), as are the print statements and tracing decorators. -/

/-- Python str.strip with ASCII whitespace, on an explicit character list:
drop leading whitespace, then (via reverse) trailing whitespace. -/
def stripChars (l : List Char) : List Char :=
  ((l.dropWhile Char.isWhitespace).reverse.dropWhile Char.isWhitespace).reverse

/-- Python line.strip(). -/
def pyStrip (s : String) : String := ⟨stripChars s.data⟩

/-- Python line.lower() (ASCII case folding, which covers the two patterns
the code searches for). -/
def pyLower (s : String) : String := ⟨s.data.map Char.toLower⟩

/-- pat occurs at the head of the second list. -/
def leadsWith : List Char → List Char → Bool
  | [], _ => true
  | _ :: _, [] => false
  | p :: ps, c :: cs => p == c && leadsWith ps cs

/-- pat occurs somewhere in the list (Python substring test). -/
def hasSub (pat : List Char) : List Char → Bool
  | [] => leadsWith pat []
  | c :: cs => leadsWith pat (c :: cs) || hasSub pat cs

/-- Python pat in s. -/
def pyContains (s pat : String) : Bool := hasSub pat.data s.data

/-- Python s.startswith(pat). -/
def pyStartsWith (s pat : String) : Bool := leadsWith pat.data s.data

/-- Python s[:n] (strings are sequences of code points). -/
def pyTake (s : String) (n : ℕ) : String := ⟨s.data.take n⟩

/-- Python s.split with separator a single newline, on character lists. -/
def splitNl : List Char → List (List Char)
  | [] => [[]]
  | c :: rest =>
    match splitNl rest with
    | [] => [[c]]
    | l :: ls => if c = '\n' then [] :: l :: ls else (c :: l) :: ls

/-- Python content.split with newline separator. -/
def pySplitLines (s : String) : List String := (splitNl s.data).map fun l => ⟨l⟩

/-- agent.py lines 18-23: the SearchIntent enumeration. -/
inductive SearchIntent where
  | INITIAL_EXPLORATION
  | DEEP_DIVE
  | FACT_CHECKING
  | RELATED_TOPICS
  | SYNTHESIS
deriving DecidableEq

/-- agent.py lines 25-31: the SearchResult model (timestamp omitted, see the
header comment; relevance_score as an exact rational). -/
structure SearchResult where
  title : String
  url : String
  content : String
  relevance_score : ℚ
  search_intent : SearchIntent
deriving DecidableEq

/-- agent.py lines 33-39: the mutable research context. -/
structure ResearchContext where
  query : String
  search_history : List SearchResult := []
  key_findings : List String := []
  unanswered_questions : List String := []
  search_iterations : ℕ := 0
deriving DecidableEq

/-- agent.py lines 41-46: a planned search. -/
structure SearchPlan where
  intent : SearchIntent
  query : String
  reasoning : String
deriving DecidableEq

/-- One raw item of the provider response (title, url, text), as consumed by
the loop at agent.py lines 64-74. -/
structure ExaItem where
  title : String
  url : String
  text : String
deriving DecidableEq

/-- agent.py lines 49-79: get_search_results.  resp models everything that
happens inside the try block (client construction plus the
search_and_contents call): error covers any raise.  On success, for the item
at zero-based position i the code computes relevance = 1.0 - (i * 0.1) and
stores max(0.1, relevance), truncates text to 2000 characters and attaches
the INITIAL_EXPLORATION placeholder intent.  On any exception it returns the
empty list (lines 77-79). -/
def get_search_results (query : String) (num_results : ℕ := 10)
    (resp : Except String (List ExaItem)) : List SearchResult :=
  match resp with
  | .error _ => []
  | .ok items =>
    items.enum.map fun p =>
      { title := p.2.title
        url := p.2.url
        content := pyTake p.2.text 2000
        relevance_score := max (1/10 : ℚ) (1 - (p.1 : ℚ) * (1/10))
        search_intent := SearchIntent.INITIAL_EXPLORATION }

/-- The per-line test of agent.py lines 308-310 as a partial map: the line
passes when its stripped form is non-empty, the raw (unstripped) line does
not start with the magnifier emoji, and the lowered raw line contains
one of the two keywords; the value kept is the stripped line. -/
def findingOfLine (line : String) : Option String :=
  if pyStrip line ≠ "" ∧ pyStartsWith line ("🔍") = false ∧
      (pyContains (pyLower line) ("finding") = true ∨
       pyContains (pyLower line) ("discovered") = true) then
    some (pyStrip line)
  else none

/-- agent.py lines 306-310: split the narrative on newlines and run the
nested-if for-loop that appends stripped matching lines, as a fold. -/
def extractFindings (content : String) : List String :=
  (pySplitLines content).foldl
    (fun acc line =>
      if pyStrip line ≠ "" ∧ pyStartsWith line ("🔍") = false then
        if pyContains (pyLower line) ("finding") = true ∨
            pyContains (pyLower line) ("discovered") = true then
          acc ++ [pyStrip line]
        else acc
      else acc) []

/-- The extraction as claim C9 words it: every test (non-emptiness, the emoji
check, the keyword check) applied to the line after trimming whitespace.
This definition follows the claim text, for comparison with extractFindings
(which follows the code). -/
def extractFindingsClaimed (content : String) : List String :=
  (pySplitLines content).filterMap fun line =>
    if pyStrip line ≠ "" ∧ pyStartsWith (pyStrip line) ("🔍") = false ∧
        (pyContains (pyLower (pyStrip line)) ("finding") = true ∨
         pyContains (pyLower (pyStrip line)) ("discovered") = true) then
      some (pyStrip line)
    else none

/-- The executor LLM response for one plan (the mirascope call result at
agent.py line 288): tools is the list of invoked tool calls' outcomes (each
tool.call() at line 294 may raise, modelled by error), content the narrative
text (the empty string models a falsy content at line 304). -/
structure ExecResponse where
  tools : List (Except String (List SearchResult))
  content : String

/-- One plan as returned by the planner, paired with the oracle outcome of
execute_search on it (error: the LLM call itself raises, which escapes to the
outer except at agent.py line 312). -/
structure PlannedExec where
  plan : SearchPlan
  exec : Except String ExecResponse

/-- Oracle outcome of one planning round: plan_searches raises (planFail), or
returns a list of plans, each with its execution outcome attached. -/
inductive PlanOutcome where
  | planFail (msg : String)
  | plans (pes : List PlannedExec)

deriving instance DecidableEq for Except

/-- The execute_search call for this plan did not raise. -/
def execOk : Except String ExecResponse → Bool
  | .ok _ => true
  | .error _ => false

/-- A round script in which no exception escapes to the outer except of
agent.py line 312: planning succeeds and every executed (first two) plan's
LLM call succeeds.  Tool failures remain allowed: they are caught locally at
lines 300-301. -/
def roundOk : PlanOutcome → Bool
  | .planFail _ => false
  | .plans pes => (pes.take 2).all fun pe => execOk pe.exec

/-- Loop state: the research context, plus ghost bookkeeping used only to
state invariants (the number of plan_searches calls made, and a log of the
executed plans with their tool outcomes).  The ctx component follows the
code; the ghost fields are write-only. -/
structure LoopState where
  ctx : ResearchContext
  planningCalls : ℕ
  execLog : List (SearchPlan × List (Except String (List SearchResult)))

/-- agent.py lines 293-301: one tool invocation.  On success every returned
result has its search_intent overwritten to the plan's intent (line 297) and
is appended, in order, to search_history (line 298); a raise from tool.call()
is caught and logged, contributing nothing (lines 300-301). -/
def processTool (intent : SearchIntent) (ctx : ResearchContext)
    (t : Except String (List SearchResult)) : ResearchContext :=
  match t with
  | .error _ => ctx
  | .ok results =>
    { ctx with search_history :=
        ctx.search_history ++ results.map fun r => { r with search_intent := intent } }

/-- agent.py lines 288-310: process one plan whose execute_search call
succeeded: fold the tool outcomes into the context (lines 291-301), then, if
the narrative content is truthy, append the extracted findings
(lines 304-310). -/
def processExec (plan : SearchPlan) (er : ExecResponse) (ctx : ResearchContext) :
    ResearchContext :=
  let ctx1 := er.tools.foldl (processTool plan.intent) ctx
  if er.content ≠ "" then
    { ctx1 with key_findings := ctx1.key_findings ++ extractFindings er.content }
  else ctx1

/-- agent.py lines 282-310: the for-loop over the (already capped) plans.
The boolean is true when an execute_search raise escapes to the outer except
of line 312, aborting the round (the remaining plans do not run). -/
def processPlans (st : LoopState) : List PlannedExec → LoopState × Bool
  | [] => (st, false)
  | pe :: rest =>
    match pe.exec with
    | .error _ => (st, true)
    | .ok er =>
      processPlans
        { st with ctx := processExec pe.plan er st.ctx,
                  execLog := st.execLog ++ [(pe.plan, er.tools)] } rest

/-- agent.py lines 277-314: one round's try-block: call plan_searches (the
ghost planningCalls counter records the call); on a raise the outer except
catches it and the loop breaks (true); on success execute the first two
plans (search_plans[:2], line 282). -/
def stepRound (outcome : PlanOutcome) (st : LoopState) : LoopState × Bool :=
  let st1 := { st with planningCalls := st.planningCalls + 1 }
  match outcome with
  | .planFail _ => (st1, true)
  | .plans pes => processPlans st1 (pes.take 2)

/-- agent.py line 273: research_context.search_iterations += 1. -/
def bumpIter (st : LoopState) : LoopState :=
  { st with ctx := { st.ctx with search_iterations := st.ctx.search_iterations + 1 } }

/-- agent.py lines 272-319: the while loop.  Guard: search_iterations <
max_iterations (line 272); each pass increments the counter (line 273), runs
the round (lines 277-314), breaks on an escaped exception (line 314), and
otherwise breaks early exactly when len(key_findings) >= 5 and
search_iterations >= 3 (lines 317-319).  The fuel argument only bounds the
recursion: since every pass increments search_iterations by one, starting
the loop with fuel = max_iterations - search_iterations makes it exit by the
guard, exactly as the while loop does. -/
def researchLoop (script : ℕ → PlanOutcome) (maxIter : ℕ) : ℕ → LoopState → LoopState
  | 0, st => st
  | fuel + 1, st =>
    if st.ctx.search_iterations < maxIter then
      if (stepRound (script (st.ctx.search_iterations + 1)) (bumpIter st)).2 then
        (stepRound (script (st.ctx.search_iterations + 1)) (bumpIter st)).1
      else if 5 ≤ (stepRound (script (st.ctx.search_iterations + 1)) (bumpIter st)).1.ctx.key_findings.length ∧
          3 ≤ (stepRound (script (st.ctx.search_iterations + 1)) (bumpIter st)).1.ctx.search_iterations then
        (stepRound (script (st.ctx.search_iterations + 1)) (bumpIter st)).1
      else researchLoop script maxIter fuel
        (stepRound (script (st.ctx.search_iterations + 1)) (bumpIter st)).1
    else st

/-- agent.py line 267: ResearchContext(query=question), with zeroed ghost
fields. -/
def initState (question : String) : LoopState :=
  { ctx := { query := question }, planningCalls := 0, execLog := [] }

/-- The loop state after the while loop of run_deep_research_agent. -/
def runDeepResearchState (script : ℕ → PlanOutcome) (question : String)
    (maxIter : ℕ) : LoopState :=
  researchLoop script maxIter maxIter (initState question)

/-- agent.py lines 331-335: the returned dictionary. -/
structure RunResult where
  final_report : String
  research_context : ResearchContext
  iterations : ℕ

/-- agent.py lines 261-335: run_deep_research_agent.  synth models the
synthesize_research LLM call (line 323), applied exactly once to the final
context after the loop; the returned record mirrors the dict of
lines 331-335. -/
def run_deep_research_agent (synth : ResearchContext → String)
    (script : ℕ → PlanOutcome) (question : String) (maxIter : ℕ := 5) : RunResult :=
  let st := runDeepResearchState script question maxIter
  { final_report := synth st.ctx
    research_context := st.ctx
    iterations := st.ctx.search_iterations }

/-- Results retagged with an intent, as agent.py lines 296-297 do before
appending. -/
def retag (intent : SearchIntent) (rs : List SearchResult) : List SearchResult :=
  rs.map fun r => { r with search_intent := intent }

/-- What one tool outcome contributes to search_history. -/
def toolAppended (intent : SearchIntent) :
    Except String (List SearchResult) → List SearchResult
  | .error _ => []
  | .ok rs => retag intent rs

/-- Concatenation of a list of lists. -/
def flattenL : List (List α) → List α
  | [] => []
  | l :: ls => l ++ flattenL ls

/-- What one executed plan contributes to search_history. -/
def entryAppended (p : SearchPlan)
    (ts : List (Except String (List SearchResult))) : List SearchResult :=
  flattenL (ts.map (toolAppended p.intent))

/-- What a whole execution log contributes to search_history. -/
def logAppended
    (log : List (SearchPlan × List (Except String (List SearchResult)))) :
    List SearchResult :=
  flattenL (log.map fun en => entryAppended en.1 en.2)

/-- A finding string as the code appends it: non-empty and already stripped. -/
def goodStr (s : String) : Prop := s ≠ "" ∧ pyStrip s = s

/-- The ghost-log invariant: search_history is exactly what the logged plan
executions appended. -/
def histOK (st : LoopState) : Prop :=
  st.ctx.search_history = logAppended st.execLog

/-- For claim C6: the round script produced when the search credential is
missing: every round plans one search whose single tool call wraps the
provider failure, which get_search_results catches (agent.py lines 77-79),
and whose narrative is empty. -/
def missingKeyScript (p : SearchPlan) (q : String) (n : ℕ) (e : String) :
    ℕ → PlanOutcome :=
  fun _ => PlanOutcome.plans
    [⟨p, Except.ok ⟨[Except.ok (get_search_results q n (Except.error e))], ("")⟩⟩]

/-- A sample plan used by concrete runs. -/
def planA : SearchPlan :=
  { intent := SearchIntent.DEEP_DIVE, query := "a", reasoning := "r" }

/-- A second sample plan. -/
def planB : SearchPlan :=
  { intent := SearchIntent.FACT_CHECKING, query := "b", reasoning := "r2" }

/-- A sample search result as a tool would return it (placeholder intent). -/
def resB : SearchResult :=
  { title := "t", url := "u", content := "c", relevance_score := 1,
    search_intent := SearchIntent.INITIAL_EXPLORATION }

/-- For claim C5's counterexample: round scripts in which the first plan's
execute_search LLM call raises while the second plan would succeed and
would contribute one search result and one finding line. -/
def cexScriptC5 : ℕ → PlanOutcome := fun _ =>
  PlanOutcome.plans
    [⟨planA, Except.error ("llm failure")⟩,
     ⟨planB, Except.ok ⟨[Except.ok [resB]], ("Key finding: something")⟩⟩]

/-- A concrete exception-free script whose single plan produces one finding
line and no tool calls. -/
def scriptC10 : ℕ → PlanOutcome := fun _ =>
  PlanOutcome.plans [⟨planA, Except.ok ⟨[], ("New finding: water is wet")⟩⟩]

/-- A concrete exception-free script whose single plan runs one successful
tool call returning one result. -/
def scriptC3 : ℕ → PlanOutcome := fun _ =>
  PlanOutcome.plans [⟨planB, Except.ok ⟨[Except.ok [resB]], ("")⟩⟩]

theorem flattenL_append (a b : List (List α)) :
    flattenL (a ++ b) = flattenL a ++ flattenL b := by
  induction a with
  | nil => rfl
  | cons l ls ih => simp [flattenL, ih, List.append_assoc]

theorem mem_flattenL {x : α} : ∀ {ls : List (List α)},
    x ∈ flattenL ls ↔ ∃ l ∈ ls, x ∈ l := by
  intro ls
  induction ls with
  | nil => simp [flattenL]
  | cons l ls ih => simp [flattenL, List.mem_append, ih]

theorem head?_dropWhile_not (p : α → Bool) :
    ∀ (l : List α) (c : α), (l.dropWhile p).head? = some c → p c = false := by
  intro l
  induction l with
  | nil => intro c h; simp [List.dropWhile] at h
  | cons a l ih =>
    intro c h
    by_cases hpa : p a = true
    · rw [List.dropWhile_cons, if_pos hpa] at h
      exact ih c h
    · rw [List.dropWhile_cons, if_neg hpa] at h
      simp at h
      rw [← h]
      simpa using hpa

theorem dropWhile_eq_self_of_head (p : α → Bool) (l : List α)
    (h : ∀ c, l.head? = some c → p c = false) : l.dropWhile p = l := by
  cases l with
  | nil => rfl
  | cons a l => simp [List.dropWhile_cons, h a rfl]

theorem dropWhile_suffix_ex (p : α → Bool) :
    ∀ l : List α, ∃ t, t ++ l.dropWhile p = l := by
  intro l
  induction l with
  | nil => exact ⟨[], rfl⟩
  | cons a l ih =>
    by_cases hpa : p a = true
    · obtain ⟨t, ht⟩ := ih
      exact ⟨a :: t, by simp [List.dropWhile_cons, hpa, ht]⟩
    · exact ⟨[], by simp [List.dropWhile_cons, hpa]⟩

theorem stripChars_idem (l : List Char) : stripChars (stripChars l) = stripChars l := by
  have hAhead : ∀ c, ((l.dropWhile Char.isWhitespace).head? = some c) →
      Char.isWhitespace c = false := fun c hc => head?_dropWhile_not _ _ c hc
  have hBhead : ∀ c,
      (((l.dropWhile Char.isWhitespace).reverse.dropWhile Char.isWhitespace).head? = some c) →
      Char.isWhitespace c = false := fun c hc => head?_dropWhile_not _ _ c hc
  obtain ⟨t, ht⟩ := dropWhile_suffix_ex Char.isWhitespace (l.dropWhile Char.isWhitespace).reverse
  have hBA : ((l.dropWhile Char.isWhitespace).reverse.dropWhile Char.isWhitespace).reverse
      ++ t.reverse = l.dropWhile Char.isWhitespace := by
    have h2 := congrArg List.reverse ht
    simpa [List.reverse_append] using h2
  have hBrevHead : ∀ c,
      ((((l.dropWhile Char.isWhitespace).reverse.dropWhile Char.isWhitespace).reverse).head?
        = some c) → Char.isWhitespace c = false := by
    intro c hc
    apply hAhead c
    rw [← hBA]
    cases hBrev : ((l.dropWhile Char.isWhitespace).reverse.dropWhile Char.isWhitespace).reverse with
    | nil => rw [hBrev] at hc; simp at hc
    | cons x xs =>
      rw [hBrev] at hc
      simp at hc
      simp [hc]
  show (((stripChars l).dropWhile Char.isWhitespace).reverse.dropWhile Char.isWhitespace).reverse
      = stripChars l
  rw [show stripChars l
      = ((l.dropWhile Char.isWhitespace).reverse.dropWhile Char.isWhitespace).reverse from rfl]
  rw [dropWhile_eq_self_of_head _ _ hBrevHead]
  rw [List.reverse_reverse]
  rw [dropWhile_eq_self_of_head _ _ hBhead]

theorem pyStrip_idem (s : String) : pyStrip (pyStrip s) = pyStrip s :=
  congrArg String.mk (stripChars_idem s.data)

theorem extractFindings_empty : extractFindings ("") = [] := by decide

theorem extract_step (acc : List String) (line : String) :
    (if pyStrip line ≠ "" ∧ pyStartsWith line ("🔍") = false then
       if pyContains (pyLower line) ("finding") = true ∨
           pyContains (pyLower line) ("discovered") = true then
         acc ++ [pyStrip line]
       else acc
     else acc)
    = acc ++ (findingOfLine line).toList := by
  by_cases h1 : pyStrip line ≠ ""
  · by_cases h2 : pyStartsWith line ("🔍") = false
    · by_cases h3 : pyContains (pyLower line) ("finding") = true ∨
          pyContains (pyLower line) ("discovered") = true
      · simp [findingOfLine, h1, h2, h3]
      · simp [findingOfLine, h1, h2, h3]
    · simp [findingOfLine, h1, h2]
  · simp [findingOfLine, h1]

theorem extractFindings_eq (content : String) :
    extractFindings content = (pySplitLines content).filterMap findingOfLine := by
  have key : ∀ (lines : List String) (acc : List String),
      lines.foldl
        (fun acc line =>
          if pyStrip line ≠ "" ∧ pyStartsWith line ("🔍") = false then
            if pyContains (pyLower line) ("finding") = true ∨
                pyContains (pyLower line) ("discovered") = true then
              acc ++ [pyStrip line]
            else acc
          else acc) acc
      = acc ++ lines.filterMap findingOfLine := by
    intro lines
    induction lines with
    | nil => intro acc; simp
    | cons line lines ih =>
      intro acc
      rw [List.foldl_cons, ih, extract_step]
      cases hfl : findingOfLine line <;>
        simp [List.filterMap_cons, hfl, List.append_assoc]
  simpa [extractFindings] using key (pySplitLines content) []

theorem mem_extractFindings {s content : String}
    (h : s ∈ extractFindings content) : s ≠ "" ∧ pyStrip s = s := by
  rw [extractFindings_eq] at h
  obtain ⟨line, _, hfl⟩ := List.mem_filterMap.mp h
  unfold findingOfLine at hfl
  split_ifs at hfl with hcond
  · obtain ⟨h1, -, -⟩ := hcond
    obtain rfl : pyStrip line = s := Option.some.inj hfl
    exact ⟨h1, pyStrip_idem line⟩

theorem foldl_processTool (intent : SearchIntent) :
    ∀ (ts : List (Except String (List SearchResult))) (ctx : ResearchContext),
      ts.foldl (processTool intent) ctx
        = { ctx with search_history :=
              ctx.search_history ++ flattenL (ts.map (toolAppended intent)) } := by
  intro ts
  induction ts with
  | nil => intro ctx; simp [flattenL]
  | cons t ts ih =>
    intro ctx
    cases t with
    | error e => simp [List.foldl_cons, processTool, toolAppended, flattenL, ih]
    | ok rs =>
      simp [List.foldl_cons, processTool, toolAppended, flattenL, ih, retag,
        List.append_assoc]

theorem processExec_eq (p : SearchPlan) (er : ExecResponse) (ctx : ResearchContext) :
    processExec p er ctx
      = { ctx with
            search_history := ctx.search_history ++ entryAppended p er.tools,
            key_findings := ctx.key_findings ++ extractFindings er.content } := by
  show (if er.content ≠ "" then
      { er.tools.foldl (processTool p.intent) ctx with
          key_findings := (er.tools.foldl (processTool p.intent) ctx).key_findings
            ++ extractFindings er.content }
    else er.tools.foldl (processTool p.intent) ctx) = _
  rw [foldl_processTool]
  by_cases hc : er.content = ""
  · simp [hc, entryAppended, extractFindings_empty]
  · simp [hc, entryAppended]

theorem processPlans_planningCalls :
    ∀ (l : List PlannedExec) (st : LoopState),
      (processPlans st l).1.planningCalls = st.planningCalls := by
  intro l
  induction l with
  | nil => intro st; rfl
  | cons pe rest ih =>
    intro st
    obtain ⟨plan, exec⟩ := pe
    cases exec with
    | error e => simp [processPlans]
    | ok er => simp [processPlans, ih]

theorem processPlans_iterations :
    ∀ (l : List PlannedExec) (st : LoopState),
      (processPlans st l).1.ctx.search_iterations = st.ctx.search_iterations := by
  intro l
  induction l with
  | nil => intro st; rfl
  | cons pe rest ih =>
    intro st
    obtain ⟨plan, exec⟩ := pe
    cases exec with
    | error e => simp [processPlans]
    | ok er => simp [processPlans, ih, processExec_eq]

theorem processPlans_no_abort :
    ∀ (l : List PlannedExec) (st : LoopState),
      (∀ pe ∈ l, execOk pe.exec = true) → (processPlans st l).2 = false := by
  intro l
  induction l with
  | nil => intro st _; rfl
  | cons pe rest ih =>
    intro st h
    obtain ⟨plan, exec⟩ := pe
    cases exec with
    | error e => exact absurd (h _ (List.mem_cons_self _ _)) (by simp [execOk])
    | ok er =>
      simp only [processPlans]
      exact ih _ fun pe hpe => h pe (List.mem_cons_of_mem _ hpe)

theorem stepRound_planningCalls (o : PlanOutcome) (st : LoopState) :
    (stepRound o st).1.planningCalls = st.planningCalls + 1 := by
  cases o with
  | planFail m => rfl
  | plans pes => simp [stepRound, processPlans_planningCalls]

theorem stepRound_iterations (o : PlanOutcome) (st : LoopState) :
    (stepRound o st).1.ctx.search_iterations = st.ctx.search_iterations := by
  cases o with
  | planFail m => rfl
  | plans pes => simp [stepRound, processPlans_iterations]

theorem stepRound_no_abort (o : PlanOutcome) (st : LoopState)
    (h : roundOk o = true) : (stepRound o st).2 = false := by
  cases o with
  | planFail m => simp [roundOk] at h
  | plans pes =>
    rw [roundOk, List.all_eq_true] at h
    exact processPlans_no_abort _ _ h

theorem researchLoop_inv (script : ℕ → PlanOutcome) (maxIter : ℕ)
    (P : LoopState → Prop)
    (hbump : ∀ st, P st → P (bumpIter st))
    (hstep : ∀ o st, P st → P (stepRound o st).1) :
    ∀ fuel st, P st → P (researchLoop script maxIter fuel st) := by
  intro fuel
  induction fuel with
  | zero => intro st h; exact h
  | succ fuel ih =>
    intro st h
    simp only [researchLoop]
    by_cases hlt : st.ctx.search_iterations < maxIter
    · rw [if_pos hlt]
      by_cases hb : (stepRound (script (st.ctx.search_iterations + 1)) (bumpIter st)).2 = true
      · rw [if_pos hb]
        exact hstep _ _ (hbump _ h)
      · rw [if_neg hb]
        by_cases hs : 5 ≤ (stepRound (script (st.ctx.search_iterations + 1))
              (bumpIter st)).1.ctx.key_findings.length ∧
            3 ≤ (stepRound (script (st.ctx.search_iterations + 1))
              (bumpIter st)).1.ctx.search_iterations
        · rw [if_pos hs]
          exact hstep _ _ (hbump _ h)
        · rw [if_neg hs]
          exact ih _ (hstep _ _ (hbump _ h))
    · rw [if_neg hlt]
      exact h

theorem researchLoop_counts (script : ℕ → PlanOutcome) (maxIter : ℕ) :
    ∀ (fuel : ℕ) (st : LoopState),
      st.planningCalls = st.ctx.search_iterations →
      st.ctx.search_iterations ≤ maxIter →
      (researchLoop script maxIter fuel st).planningCalls
          = (researchLoop script maxIter fuel st).ctx.search_iterations
        ∧ (researchLoop script maxIter fuel st).ctx.search_iterations ≤ maxIter := by
  intro fuel
  induction fuel with
  | zero => intro st h1 h2; exact ⟨h1, h2⟩
  | succ fuel ih =>
    intro st h1 h2
    simp only [researchLoop]
    by_cases hlt : st.ctx.search_iterations < maxIter
    · rw [if_pos hlt]
      have hpc := stepRound_planningCalls
        (script (st.ctx.search_iterations + 1)) (bumpIter st)
      have hit := stepRound_iterations
        (script (st.ctx.search_iterations + 1)) (bumpIter st)
      have hbp : (bumpIter st).ctx.search_iterations = st.ctx.search_iterations + 1 := rfl
      have hbc : (bumpIter st).planningCalls = st.planningCalls := rfl
      rw [hbp] at hit
      rw [hbc] at hpc
      have h1' : (stepRound (script (st.ctx.search_iterations + 1))
            (bumpIter st)).1.planningCalls
          = (stepRound (script (st.ctx.search_iterations + 1))
            (bumpIter st)).1.ctx.search_iterations := by
        rw [hpc, hit, h1]
      have h2' : (stepRound (script (st.ctx.search_iterations + 1))
            (bumpIter st)).1.ctx.search_iterations ≤ maxIter := by
        rw [hit]; omega
      by_cases hb : (stepRound (script (st.ctx.search_iterations + 1)) (bumpIter st)).2 = true
      · rw [if_pos hb]; exact ⟨h1', h2'⟩
      · rw [if_neg hb]
        by_cases hs : 5 ≤ (stepRound (script (st.ctx.search_iterations + 1))
              (bumpIter st)).1.ctx.key_findings.length ∧
            3 ≤ (stepRound (script (st.ctx.search_iterations + 1))
              (bumpIter st)).1.ctx.search_iterations
        · rw [if_pos hs]; exact ⟨h1', h2'⟩
        · rw [if_neg hs]; exact ih _ h1' h2'
    · rw [if_neg hlt]; exact ⟨h1, h2⟩

theorem researchLoop_stop_only_if (script : ℕ → PlanOutcome) (maxIter : ℕ)
    (hok : ∀ n, roundOk (script n) = true) :
    ∀ (fuel : ℕ) (st : LoopState),
      maxIter ≤ st.ctx.search_iterations + fuel →
      (researchLoop script maxIter fuel st).ctx.search_iterations < maxIter →
      5 ≤ (researchLoop script maxIter fuel st).ctx.key_findings.length ∧
        3 ≤ (researchLoop script maxIter fuel st).ctx.search_iterations := by
  intro fuel
  induction fuel with
  | zero =>
    intro st hfuel hlt
    simp only [researchLoop] at hlt
    omega
  | succ fuel ih =>
    intro st hfuel
    simp only [researchLoop]
    by_cases hlt : st.ctx.search_iterations < maxIter
    · rw [if_pos hlt]
      have hb : (stepRound (script (st.ctx.search_iterations + 1)) (bumpIter st)).2 = false :=
        stepRound_no_abort _ _ (hok _)
      rw [if_neg (by simp [hb])]
      by_cases hs : 5 ≤ (stepRound (script (st.ctx.search_iterations + 1))
            (bumpIter st)).1.ctx.key_findings.length ∧
          3 ≤ (stepRound (script (st.ctx.search_iterations + 1))
            (bumpIter st)).1.ctx.search_iterations
      · rw [if_pos hs]
        intro _
        exact hs
      · rw [if_neg hs]
        apply ih
        have hit := stepRound_iterations
          (script (st.ctx.search_iterations + 1)) (bumpIter st)
        have hbp : (bumpIter st).ctx.search_iterations = st.ctx.search_iterations + 1 := rfl
        rw [hbp] at hit
        omega
    · rw [if_neg hlt]
      intro h
      exact absurd h hlt

theorem processPlans_good :
    ∀ (l : List PlannedExec) (st : LoopState),
      (∀ s ∈ st.ctx.key_findings, goodStr s) →
      ∀ s ∈ (processPlans st l).1.ctx.key_findings, goodStr s := by
  intro l
  induction l with
  | nil => intro st h; exact h
  | cons pe rest ih =>
    intro st h
    obtain ⟨plan, exec⟩ := pe
    cases exec with
    | error e => exact h
    | ok er =>
      simp only [processPlans]
      apply ih
      intro s hs
      rw [processExec_eq] at hs
      simp only [List.mem_append] at hs
      rcases hs with hs | hs
      · exact h s hs
      · exact mem_extractFindings hs

theorem stepRound_good (o : PlanOutcome) (st : LoopState)
    (h : ∀ s ∈ st.ctx.key_findings, goodStr s) :
    ∀ s ∈ (stepRound o st).1.ctx.key_findings, goodStr s := by
  cases o with
  | planFail m => exact h
  | plans pes => exact processPlans_good _ _ h

theorem logAppended_append (a b :
    List (SearchPlan × List (Except String (List SearchResult)))) :
    logAppended (a ++ b) = logAppended a ++ logAppended b := by
  simp [logAppended, List.map_append, flattenL_append]

theorem processPlans_hist :
    ∀ (l : List PlannedExec) (st : LoopState),
      histOK st → histOK (processPlans st l).1 := by
  intro l
  induction l with
  | nil => intro st h; exact h
  | cons pe rest ih =>
    intro st h
    obtain ⟨plan, exec⟩ := pe
    cases exec with
    | error e => exact h
    | ok er =>
      simp only [processPlans]
      apply ih
      show (processExec plan er st.ctx).search_history
        = logAppended (st.execLog ++ [(plan, er.tools)])
      rw [processExec_eq, logAppended_append, h]
      simp [logAppended, flattenL]

theorem stepRound_hist (o : PlanOutcome) (st : LoopState)
    (h : histOK st) : histOK (stepRound o st).1 := by
  cases o with
  | planFail m => exact h
  | plans pes => exact processPlans_hist _ _ h

theorem mem_entryAppended_intent (p : SearchPlan)
    (ts : List (Except String (List SearchResult))) :
    ∀ r ∈ entryAppended p ts, r.search_intent = p.intent := by
  intro r hr
  rw [entryAppended, mem_flattenL] at hr
  obtain ⟨l, hl, hrl⟩ := hr
  obtain ⟨t, _, rfl⟩ := List.mem_map.mp hl
  cases t with
  | error e => simp [toolAppended] at hrl
  | ok rs =>
    simp only [toolAppended, retag] at hrl
    obtain ⟨x, _, rfl⟩ := List.mem_map.mp hrl
    rfl

theorem processExec_trivial (p : SearchPlan) (ctx : ResearchContext) :
    processExec p ⟨[Except.ok []], ("")⟩ ctx = ctx := by
  rw [processExec_eq]
  simp [entryAppended, toolAppended, retag, flattenL, extractFindings_empty]

theorem stepRound_missingKey (p : SearchPlan) (q : String) (n : ℕ) (e : String)
    (st : LoopState) (k : ℕ) :
    stepRound (missingKeyScript p q n e k) st
      = ({ st with planningCalls := st.planningCalls + 1,
                   execLog := st.execLog
                     ++ [(p, [Except.ok (get_search_results q n (Except.error e))])] },
         false) := by
  have h1 : processExec p
      ⟨[Except.ok (get_search_results q n (Except.error e))], ("")⟩ st.ctx = st.ctx := by
    rw [show get_search_results q n (Except.error e) = [] from rfl]
    exact processExec_trivial p st.ctx
  show processPlans { st with planningCalls := st.planningCalls + 1 }
      [⟨p, Except.ok ⟨[Except.ok (get_search_results q n (Except.error e))], ("")⟩⟩] = _
  simp only [processPlans]
  rw [show ({ st with planningCalls := st.planningCalls + 1 } : LoopState).ctx
    = st.ctx from rfl, h1]

theorem researchLoop_missingKey (p : SearchPlan) (q : String) (n : ℕ) (e : String)
    (maxIter : ℕ) :
    ∀ (fuel : ℕ) (st : LoopState),
      maxIter ≤ st.ctx.search_iterations + fuel →
      st.ctx.search_iterations ≤ maxIter →
      st.ctx.key_findings.length < 5 →
      (researchLoop (missingKeyScript p q n e) maxIter fuel st).ctx
        = { st.ctx with search_iterations := maxIter } := by
  intro fuel
  induction fuel with
  | zero =>
    intro st h1 h2 h3
    have hiter : st.ctx.search_iterations = maxIter := by omega
    simp only [researchLoop]
    rw [← hiter]
  | succ fuel ih =>
    intro st h1 h2 h3
    simp only [researchLoop]
    by_cases hlt : st.ctx.search_iterations < maxIter
    · rw [if_pos hlt, stepRound_missingKey p q n e (bumpIter st)
        (st.ctx.search_iterations + 1)]
      rw [if_neg (by simp)]
      dsimp only [bumpIter]
      rw [if_neg (show ¬(5 ≤ st.ctx.key_findings.length ∧
          3 ≤ st.ctx.search_iterations + 1) by omega)]
      rw [ih _ (by dsimp only; omega) (by dsimp only; omega)
        (by dsimp only; omega)]
    · rw [if_neg hlt]
      have hiter : st.ctx.search_iterations = maxIter := by omega
      rw [← hiter]

/-- C8: for every successful search call and every zero-based position i, the
returned SearchResult at position i has relevance_score equal to
max(0.1, 1.0 - i*0.1); scores are floor-clamped at 0.1 and non-increasing
with position (stated for any i ≤ j). -/
theorem relevance_score_formula (query : String) (n : ℕ) (items : List ExaItem)
    (i j : ℕ)
    (hi : i < (get_search_results query n (Except.ok items)).length)
    (hj : j < (get_search_results query n (Except.ok items)).length)
    (hij : i ≤ j) :
    ((get_search_results query n (Except.ok items)).get ⟨i, hi⟩).relevance_score
        = max (1/10 : ℚ) (1 - (i : ℚ) * (1/10))
      ∧ (1/10 : ℚ)
        ≤ ((get_search_results query n (Except.ok items)).get ⟨i, hi⟩).relevance_score
      ∧ ((get_search_results query n (Except.ok items)).get ⟨j, hj⟩).relevance_score
        ≤ ((get_search_results query n (Except.ok items)).get ⟨i, hi⟩).relevance_score := by
  have key : ∀ (k : ℕ) (hk : k < (get_search_results query n (Except.ok items)).length),
      ((get_search_results query n (Except.ok items)).get ⟨k, hk⟩).relevance_score
        = max (1/10 : ℚ) (1 - (k : ℚ) * (1/10)) := by
    intro k hk
    have hk2 : k < items.enum.length := by
      simpa [get_search_results] using hk
    show ((get_search_results query n (Except.ok items))[k]).relevance_score = _
    simp only [get_search_results]
    rw [List.getElem_map, List.getElem_enum]
  refine ⟨key i hi, ?_, ?_⟩
  · rw [key i hi]
    exact le_max_left _ _
  · rw [key i hi, key j hj]
    refine max_le_max (le_refl _) ?_
    have hq : (i : ℚ) ≤ (j : ℚ) := by exact_mod_cast hij
    have := mul_le_mul_of_nonneg_right hq (show (0:ℚ) ≤ 1/10 by norm_num)
    linarith

/-- Witness for C8 at a concrete two-item provider response, positions 0, 1. -/
theorem relevance_score_formula_witness :
    ((get_search_results ("q") 10
          (Except.ok [⟨("t"), ("u"), ("x")⟩, ⟨("t2"), ("u2"), ("y")⟩])).get
        ⟨0, by decide⟩).relevance_score = max (1/10 : ℚ) (1 - (0 : ℚ) * (1/10))
      ∧ (1/10 : ℚ) ≤ ((get_search_results ("q") 10
          (Except.ok [⟨("t"), ("u"), ("x")⟩, ⟨("t2"), ("u2"), ("y")⟩])).get
        ⟨0, by decide⟩).relevance_score
      ∧ ((get_search_results ("q") 10
          (Except.ok [⟨("t"), ("u"), ("x")⟩, ⟨("t2"), ("u2"), ("y")⟩])).get
        ⟨1, by decide⟩).relevance_score
        ≤ ((get_search_results ("q") 10
          (Except.ok [⟨("t"), ("u"), ("x")⟩, ⟨("t2"), ("u2"), ("y")⟩])).get
        ⟨0, by decide⟩).relevance_score :=
  relevance_score_formula ("q") 10 [⟨("t"), ("u"), ("x")⟩, ⟨("t2"), ("u2"), ("y")⟩]
    0 1 (by decide) (by decide) (by decide)

/-- C4: when the provider fails in any way, get_search_results does not raise
(it is total in the model) and returns the empty list, and the surrounding
plan loop proceeds to the next plan with the research context unchanged
(only the ghost log records the empty invocation). -/
theorem search_error_yields_empty_and_continues (q : String) (n : ℕ) (e : String) :
    get_search_results q n (Except.error e) = []
      ∧ ∀ (st : LoopState) (p : SearchPlan) (rest : List PlannedExec),
          processPlans st
            (⟨p, Except.ok ⟨[Except.ok (get_search_results q n (Except.error e))], ("")⟩⟩
              :: rest)
            = processPlans
                { st with execLog := st.execLog
                    ++ [(p, [Except.ok (get_search_results q n (Except.error e))])] } rest := by
  refine ⟨rfl, ?_⟩
  intro st p rest
  simp only [processPlans]
  have h1 : processExec p
      ⟨[Except.ok (get_search_results q n (Except.error e))], ("")⟩ st.ctx = st.ctx := by
    rw [show get_search_results q n (Except.error e) = [] from rfl]
    exact processExec_trivial p st.ctx
  rw [h1]

/-- C2: run_deep_research_agent performs exactly as many planning rounds as
the final search_iterations counter records (the ghost planningCalls counter
equals it), the counter never exceeds max_iterations, and the returned
iterations value equals the final counter. -/
theorem iterations_equal_planning_rounds (synth : ResearchContext → String)
    (script : ℕ → PlanOutcome) (q : String) (maxIter : ℕ) :
    (runDeepResearchState script q maxIter).planningCalls
        = (runDeepResearchState script q maxIter).ctx.search_iterations
      ∧ (runDeepResearchState script q maxIter).ctx.search_iterations ≤ maxIter
      ∧ (runDeepResearchState script q maxIter).planningCalls ≤ maxIter
      ∧ (run_deep_research_agent synth script q maxIter).iterations
        = (runDeepResearchState script q maxIter).ctx.search_iterations := by
  obtain ⟨h1, h2⟩ := researchLoop_counts script maxIter maxIter (initState q) rfl
    (Nat.zero_le maxIter)
  refine ⟨h1, h2, ?_, rfl⟩
  show (researchLoop script maxIter maxIter (initState q)).planningCalls ≤ maxIter
  rw [h1]
  exact h2

/-- C1: in every exception-free run (error aborts are handled by the
planning/execution-failure claims), the loop stops before max_iterations only
when, at the end of that round, key_findings has at least 5 entries and
search_iterations is at least 3; consequently it never stops on the findings
count alone before round 3 (final counter is at least min max_iterations 3);
and conversely, whenever both conditions hold at the end of a round the loop
returns immediately, even with fuel and max_iterations headroom left. -/
theorem stop_condition_exact (script : ℕ → PlanOutcome) (q : String) (maxIter : ℕ)
    (hok : ∀ n, roundOk (script n) = true) :
    ((runDeepResearchState script q maxIter).ctx.search_iterations < maxIter →
        5 ≤ (runDeepResearchState script q maxIter).ctx.key_findings.length ∧
          3 ≤ (runDeepResearchState script q maxIter).ctx.search_iterations)
      ∧ min maxIter 3 ≤ (runDeepResearchState script q maxIter).ctx.search_iterations
      ∧ ∀ (fuel : ℕ) (st : LoopState),
          st.ctx.search_iterations < maxIter →
          (stepRound (script (st.ctx.search_iterations + 1)) (bumpIter st)).2 = false →
          5 ≤ (stepRound (script (st.ctx.search_iterations + 1))
              (bumpIter st)).1.ctx.key_findings.length →
          3 ≤ (stepRound (script (st.ctx.search_iterations + 1))
              (bumpIter st)).1.ctx.search_iterations →
          researchLoop script maxIter (fuel + 1) st
            = (stepRound (script (st.ctx.search_iterations + 1)) (bumpIter st)).1 := by
  have hmain := researchLoop_stop_only_if script maxIter hok maxIter (initState q)
    (by show maxIter ≤ 0 + maxIter; omega)
  refine ⟨hmain, ?_, ?_⟩
  · show min maxIter 3 ≤ (researchLoop script maxIter maxIter (initState q)).ctx.search_iterations
    by_cases hlt : (researchLoop script maxIter maxIter (initState q)).ctx.search_iterations < maxIter
    · have h5 := hmain hlt
      omega
    · omega
  · intro fuel st hlt hb h5 h3
    simp only [researchLoop]
    rw [if_pos hlt, if_neg (by simp [hb]), if_pos ⟨h5, h3⟩]

/-- Witness for C1: a concrete exception-free script (each planner call
returns no plans) with max_iterations 2, so the loop runs to the bound
(min 2 3 = 2 rounds). -/
theorem stop_condition_exact_witness :
    min 2 3 ≤ (runDeepResearchState (fun _ => PlanOutcome.plans []) ("q") 2).ctx.search_iterations :=
  (stop_condition_exact (fun _ => PlanOutcome.plans []) ("q") 2 (fun _ => rfl)).2.1

/-- C3: for every run, search_history is exactly the concatenation of the
per-plan appended segments recorded in the ghost execution log, and within
the segment of any logged plan every result's search_intent equals that
plan's intent (so the SearchClient's placeholder survives only when it is
the plan's own intent). -/
theorem search_history_intents (script : ℕ → PlanOutcome) (q : String) (maxIter : ℕ) :
    (runDeepResearchState script q maxIter).ctx.search_history
        = logAppended (runDeepResearchState script q maxIter).execLog
      ∧ ∀ (p : SearchPlan) (ts : List (Except String (List SearchResult))),
          (p, ts) ∈ (runDeepResearchState script q maxIter).execLog →
          ∀ r ∈ entryAppended p ts, r.search_intent = p.intent := by
  constructor
  · exact researchLoop_inv script maxIter histOK
      (fun st h => h) (fun o st h => stepRound_hist o st h)
      maxIter (initState q) rfl
  · intro p ts _ r hr
    exact mem_entryAppended_intent p ts r hr

/-- Witness for C3: a concrete run with one executed plan and one result; the
result in the history carries the plan's intent, not the placeholder. -/
theorem search_history_intents_witness :
    (runDeepResearchState scriptC3 ("q") 1).ctx.search_history
        = logAppended (runDeepResearchState scriptC3 ("q") 1).execLog
      ∧ ({ resB with search_intent := SearchIntent.FACT_CHECKING } : SearchResult).search_intent
        = planB.intent := by
  refine ⟨(search_history_intents scriptC3 ("q") 1).1, ?_⟩
  exact (search_history_intents scriptC3 ("q") 1).2 planB [Except.ok [resB]]
    (by decide) _ (by decide)

/-- C10: every string stored in key_findings at the end of a run (the lists
only grow, so this covers every iteration's additions) is non-empty and
carries no leading or trailing whitespace: stripping it again changes
nothing. -/
theorem key_findings_trimmed_nonempty (script : ℕ → PlanOutcome) (q : String)
    (maxIter : ℕ) (s : String)
    (hs : s ∈ (runDeepResearchState script q maxIter).ctx.key_findings) :
    s ≠ "" ∧ pyStrip s = s := by
  have hinv := researchLoop_inv script maxIter
    (fun st => ∀ x ∈ st.ctx.key_findings, goodStr x)
    (fun st h => h) (fun o st h => stepRound_good o st h)
    maxIter (initState q) (by intro x hx; simp [initState] at hx)
  exact hinv s hs

/-- Witness for C10 at a concrete run that stores one finding line. -/
theorem key_findings_trimmed_nonempty_witness :
    ("New finding: water is wet") ≠ "" ∧
      pyStrip ("New finding: water is wet") = ("New finding: water is wet") :=
  key_findings_trimmed_nonempty scriptC10 ("q") 1 _ (by decide)

/-- C7: if the planner raises on round 1 the run still completes with
iterations = 1, an otherwise untouched context (empty search_history), and
the synthesizer applied exactly once to that minimal context; in general a
planning failure in any round ends the loop at once, leaving only the
iteration increment and the planning-call count of that round. -/
theorem planner_failure_synthesis (synth : ResearchContext → String)
    (script : ℕ → PlanOutcome) (q : String) (maxIter : ℕ) (msg : String)
    (h1 : script 1 = PlanOutcome.planFail msg) (h2 : 1 ≤ maxIter) :
    (run_deep_research_agent synth script q maxIter).iterations = 1
      ∧ (run_deep_research_agent synth script q maxIter).research_context
        = { query := q, search_iterations := 1 }
      ∧ (run_deep_research_agent synth script q maxIter).final_report
        = synth { query := q, search_iterations := 1 }
      ∧ ∀ (s2 : ℕ → PlanOutcome) (fuel : ℕ) (st : LoopState) (m : String),
          s2 (st.ctx.search_iterations + 1) = PlanOutcome.planFail m →
          st.ctx.search_iterations < maxIter →
          researchLoop s2 maxIter (fuel + 1) st
            = { bumpIter st with planningCalls := st.planningCalls + 1 } := by
  have general : ∀ (s2 : ℕ → PlanOutcome) (fuel : ℕ) (st : LoopState) (m : String),
      s2 (st.ctx.search_iterations + 1) = PlanOutcome.planFail m →
      st.ctx.search_iterations < maxIter →
      researchLoop s2 maxIter (fuel + 1) st
        = { bumpIter st with planningCalls := st.planningCalls + 1 } := by
    intro s2 fuel st m hm hlt
    simp only [researchLoop]
    rw [if_pos hlt, hm]
    rw [if_pos (show (stepRound (PlanOutcome.planFail m) (bumpIter st)).2 = true from rfl)]
    rfl
  have hrun : runDeepResearchState script q maxIter
      = { ctx := { query := q, search_iterations := 1 }, planningCalls := 1, execLog := [] } := by
    obtain ⟨k, rfl⟩ : ∃ k, maxIter = k + 1 := ⟨maxIter - 1, by omega⟩
    exact general script k (initState q) msg h1 (by show 0 < k + 1; omega)
  refine ⟨?_, ?_, ?_, general⟩
  · show (runDeepResearchState script q maxIter).ctx.search_iterations = 1
    rw [hrun]
  · show (runDeepResearchState script q maxIter).ctx = _
    rw [hrun]
  · show synth (runDeepResearchState script q maxIter).ctx = _
    rw [hrun]

/-- Witness for C7: a concrete planner that always raises, with
max_iterations 5. -/
theorem planner_failure_synthesis_witness :
    (run_deep_research_agent (fun c => c.query)
        (fun _ => PlanOutcome.planFail ("boom")) ("q") 5).iterations = 1 :=
  (planner_failure_synthesis (fun c => c.query)
    (fun _ => PlanOutcome.planFail ("boom")) ("q") 5 ("boom") rfl (by omega)).1

/-- Counterexample to C5: in a round whose first plan's execute_search LLM
call raises while the second plan would succeed, would append one search
result and one finding line, the loop does NOT continue to the next plan of
the same round or to further iterations: the whole round aborts (the outer
except of agent.py line 312 catches the error and breaks), so with
max_iterations = 2 the run ends after round 1 with an empty history and no
findings — the second plan's contribution is missing and no second round
runs, contradicting the claimed local recovery. -/
theorem exec_failure_cex :
    (runDeepResearchState cexScriptC5 ("q") 2).ctx.search_history = []
      ∧ (runDeepResearchState cexScriptC5 ("q") 2).ctx.key_findings = []
      ∧ (runDeepResearchState cexScriptC5 ("q") 2).ctx.search_iterations = 1 := by
  exact ⟨by decide, by decide, by decide⟩

/-- C5 as amended: only a failure of an individual tool invocation (the
search sub-call) inside a plan's execution is recovered locally — the
failing invocation contributes nothing and the rest of the plan, the other
plans and later iterations proceed; a failure of the plan's LLM execution
call itself aborts the round and ends the loop (treated like a planning
failure), after which synthesis runs. -/
theorem exec_failure_aborts_round :
    (∀ (intent : SearchIntent) (ctx : ResearchContext) (e : String),
        processTool intent ctx (Except.error e) = ctx)
      ∧ (∀ (p : SearchPlan) (ts1 ts2 : List (Except String (List SearchResult)))
            (e c : String) (ctx : ResearchContext),
          processExec p ⟨ts1 ++ Except.error e :: ts2, c⟩ ctx
            = processExec p ⟨ts1 ++ ts2, c⟩ ctx)
      ∧ (∀ (st : LoopState) (p : SearchPlan) (e : String) (rest : List PlannedExec),
          processPlans st (⟨p, Except.error e⟩ :: rest) = (st, true))
      ∧ ∀ (s2 : ℕ → PlanOutcome) (maxIter fuel : ℕ) (st : LoopState),
          st.ctx.search_iterations < maxIter →
          (stepRound (s2 (st.ctx.search_iterations + 1)) (bumpIter st)).2 = true →
          researchLoop s2 maxIter (fuel + 1) st
            = (stepRound (s2 (st.ctx.search_iterations + 1)) (bumpIter st)).1 := by
  refine ⟨fun intent ctx e => rfl, ?_, fun st p e rest => rfl, ?_⟩
  · intro p ts1 ts2 e c ctx
    rw [processExec_eq, processExec_eq]
    have hentry : entryAppended p (ts1 ++ Except.error e :: ts2)
        = entryAppended p (ts1 ++ ts2) := by
      simp [entryAppended, List.map_append, flattenL_append, List.map_cons,
        flattenL, toolAppended]
    rw [hentry]
  · intro s2 maxIter fuel st hlt hb
    simp only [researchLoop]
    rw [if_pos hlt, if_pos hb]

/-- Witness for the amended C5: a concrete aborting round ends the loop with
only the iteration increment and planning-call count recorded. -/
theorem exec_failure_aborts_round_witness :
    researchLoop (fun _ => PlanOutcome.planFail ("x")) 5 1 (initState ("w"))
      = { ctx := { query := "w", search_iterations := 1 }, planningCalls := 1,
          execLog := [] } :=
  exec_failure_aborts_round.2.2.2 (fun _ => PlanOutcome.planFail ("x")) 5 0
    (initState ("w")) (by decide) rfl

/-- Counterexample to C6: with the search credential absent, every provider
call inside get_search_results raises and is caught there (auth failure),
yet the run does not fail before the loop with a configuration error: with
max_iterations = 1 it executes a full loop iteration (iterations = 1) and
returns a normal result with an empty search history — the absence surfaces
only as silent mid-loop empty results. -/
theorem missing_credential_cex :
    (run_deep_research_agent (fun _ => ("report"))
        (missingKeyScript planA ("q2") 10 ("missing EXA_API_KEY")) ("q2") 1).iterations = 1
      ∧ (run_deep_research_agent (fun _ => ("report"))
          (missingKeyScript planA ("q2") 10 ("missing EXA_API_KEY"))
          ("q2") 1).research_context.search_history = [] := by
  exact ⟨by decide, by decide⟩

/-- C6 as amended: a missing search-provider credential is not checked before
the loop; each resulting provider failure is caught inside
get_search_results and yields an empty result list, so the run proceeds
through all max_iterations rounds, completes normally with an empty search
history and no findings, and synthesis still runs once on the final
context. -/
theorem missing_credential_degrades (synth : ResearchContext → String)
    (p : SearchPlan) (q : String) (n : ℕ) (e : String) (maxIter : ℕ) :
    (run_deep_research_agent synth (missingKeyScript p q n e) q maxIter).iterations = maxIter
      ∧ (run_deep_research_agent synth (missingKeyScript p q n e)
          q maxIter).research_context.search_history = []
      ∧ (run_deep_research_agent synth (missingKeyScript p q n e)
          q maxIter).research_context.key_findings = []
      ∧ (run_deep_research_agent synth (missingKeyScript p q n e) q maxIter).final_report
        = synth (run_deep_research_agent synth (missingKeyScript p q n e)
            q maxIter).research_context := by
  have hctx : (runDeepResearchState (missingKeyScript p q n e) q maxIter).ctx
      = { query := q, search_iterations := maxIter } := by
    exact researchLoop_missingKey p q n e maxIter maxIter (initState q)
      (by show maxIter ≤ 0 + maxIter; omega) (Nat.zero_le maxIter)
      (by show ([] : List String).length < 5; simp)
  refine ⟨?_, ?_, ?_, rfl⟩
  · show (runDeepResearchState (missingKeyScript p q n e) q maxIter).ctx.search_iterations = maxIter
    rw [hctx]
  · show (runDeepResearchState (missingKeyScript p q n e) q maxIter).ctx.search_history = []
    rw [hctx]
  · show (runDeepResearchState (missingKeyScript p q n e) q maxIter).ctx.key_findings = []
    rw [hctx]

/-- Counterexample to C9: on the line made of two spaces, the magnifier emoji
and the word finding, the code appends the stripped line (the startswith
test runs on the raw line, which begins with a space, not the emoji),
whereas the claim's reading — all tests on the trimmed line — would exclude
it (extractFindingsClaimed, built from the claim's words, keeps nothing). -/
theorem finding_extraction_cex :
    extractFindings ("  🔍 finding") = [("🔍 finding")]
      ∧ extractFindingsClaimed ("  🔍 finding") = [] := by
  exact ⟨by decide, by decide⟩

/-- C9 as amended: the extraction appends, in order and as their trimmed
forms, exactly those narrative lines whose trimmed form is non-empty, that
do not begin with the display-emoji marker BEFORE trimming, and that contain
the case-insensitive substring finding or discovered (findingOfLine); stated
at the processExec level, covering also the falsy-content shortcut. -/
theorem finding_extraction_characterization (p : SearchPlan) (er : ExecResponse)
    (ctx : ResearchContext) :
    (processExec p er ctx).key_findings
      = ctx.key_findings ++ (pySplitLines er.content).filterMap findingOfLine := by
  rw [processExec_eq]
  show ctx.key_findings ++ extractFindings er.content = _
  rw [extractFindings_eq]
